import Mathlib

/-!
Verification development for `src/data_enrichment.py` (class `LEIDataEnricher`).

The Python module is shallowly embedded below.  Mutable state (the LEI cache),
network activity (`requests.get`), sleeping (`time.sleep`) and exceptions are
made explicit: every modelled operation returns its result together with the
final cache, the ordered list of sleep durations it performed and the number of
HTTP requests it issued, and fallible operations return `Except`.

Modelling conventions, fixed once here:
* Python floats are modelled exactly at the value level: finite values as
  `ℚ` (the claims are about the symbolic formulas, not binary rounding) and
  the non-finite values `inf`, `-inf`, `nan` as explicit specials with
  IEEE-style arithmetic on the operations the code performs;
* a pandas `DataFrame` is a list of column names together with a list of rows,
  each row an association list from column name to cell value;
* Python `dict`s (rows, the cache, parsed JSON objects) are association lists
  with first-match lookup — the dicts built by the code have unique keys;
* per the data model, `lei` cells are strings, and JSON leaf values fed to the
  string-valued record fields are strings (the GLEIF response shape).
-/

namespace DataEnrichment

/-- Decidable equality of `Except` values, used to evaluate concrete runs. -/
instance {α β : Type} [DecidableEq α] [DecidableEq β] :
    DecidableEq (Except α β) := fun a b =>
  match a, b with
  | .ok x, .ok y =>
    if h : x = y then .isTrue (by rw [h])
    else .isFalse (by intro hc; injection hc with h2; exact h h2)
  | .error x, .error y =>
    if h : x = y then .isTrue (by rw [h])
    else .isFalse (by intro hc; injection hc with h2; exact h h2)
  | .ok _, .error _ => .isFalse (by intro hc; cases hc)
  | .error _, .ok _ => .isFalse (by intro hc; cases hc)

/-- Non-finite Python float values. -/
inductive Special where
  | pinf
  | ninf
  | nan
deriving DecidableEq, Repr

/-- Python float value: a finite value (an exact rational) or a non-finite
special. -/
inductive PyF where
  | fin (q : ℚ)
  | spec (s : Special)
deriving DecidableEq, Repr

/-- Cell value of a tabular row: a string, a finite number, a non-finite
float, or Python `None`. -/
inductive Value where
  | str (s : String)
  | num (q : ℚ)
  | nonfinite (s : Special)
  | null
deriving DecidableEq, Repr

/-- Row of a DataFrame: association list from column label to cell value. -/
abbrev Row := List (String × Value)

/-- Entity record built by `_fetch_lei_data` (lines 101-105 of the source):
the dict with keys `legalName`, `bic`, `country`. -/
structure Record where
  legalName : String
  bic : String
  country : String
deriving DecidableEq, Repr

/-- Record with every field the empty string (lines 116 and 129, and the
substitution at line 166). -/
def Record.empty : Record := ⟨"", "", ""⟩

/-- In-memory LEI cache `self._lei_cache`: dict from LEI code to record. -/
abbrev Cache := List (String × Record)

/-- First-match association-list lookup, the meaning of `d[k]` / `k in d` on a
Python dict with unique keys. -/
def alookup {α : Type} : List (String × α) → String → Option α
  | [], _ => none
  | p :: rest, k => if p.1 = k then some p.2 else alookup rest k

/-- Dict assignment `d[k] = v`: replaces the value when the key is
present, otherwise appends (Python dicts preserve insertion order). -/
def ainsert {α : Type} (l : List (String × α)) (k : String) (v : α) :
    List (String × α) :=
  if (alookup l k).isSome then
    l.map (fun p => if p.1 = k then (k, v) else p)
  else
    l ++ [(k, v)]

/-- Python `row.get(k, d)` on a row. -/
def rowGetD (row : Row) (k : String) (d : Value) : Value :=
  (alookup row k).getD d

/-- Column assignment `row[k] = v` on a row. -/
def setCol (row : Row) (k : String) (v : Value) : Row := ainsert row k v

/-- Dropping a column from a row (`DataFrame.drop(k, axis=1)`, rowwise). -/
def removeCol : Row → String → Row
  | [], _ => []
  | p :: rest, k => if p.1 = k then removeCol rest k else p :: removeCol rest k

/-- JSON values, the parsed body of a registry response and the persisted
cache file. -/
inductive Json where
  | str (s : String)
  | num (q : ℚ)
  | bool (b : Bool)
  | null
  | arr (xs : List Json)
  | obj (kvs : List (String × Json))

/-- Entries of a JSON object (a parsed Python dict); other shapes have none. -/
def Json.entries : Json → List (String × Json)
  | .obj kvs => kvs
  | _ => []

/-- Dict lookup `j[k]` on a parsed JSON object, as an `Option`. -/
def jget (j : Json) (k : String) : Option Json := alookup j.entries k

/-- Python `j.get(k, d)` on a parsed JSON object. -/
def jgetD (j : Json) (k : String) (d : Json) : Json := (jget j k).getD d

/-- Python `k in j` on a parsed JSON object. -/
def jmember (j : Json) (k : String) : Bool := (jget j k).isSome

/-- Python truthiness of a parsed JSON value (used by `if entity and ...`). -/
def jtruthy : Json → Bool
  | .obj kvs => !kvs.isEmpty
  | .str s => !s.isEmpty
  | .arr xs => !xs.isEmpty
  | .num q => decide (q ≠ 0)
  | .bool b => b
  | .null => false

/-- String content of a JSON leaf, with a default.  The GLEIF response shape
(spec §6) gives strings at the positions this is applied to. -/
def jstrD (j : Json) (d : String) : String :=
  match j with
  | .str s => s
  | _ => d

/-- Test `'data' in data and len(data['data']) > 0` (line 78) for a response
body whose `data` field, when present, is a list (the API shape, spec §6). -/
def hasRecords (body : Json) : Bool :=
  match jget body "data" with
  | some (.arr xs) => !xs.isEmpty
  | _ => false

/-- First element `data['data'][0]` of the response record list (line 79). -/
def firstRecord (body : Json) : Json :=
  match jget body "data" with
  | some (.arr xs) => xs.headD .null
  | _ => .null

/-- Legal-name extraction, lines 83-86: `entity['legalName'].get('name', '')`
guarded by `if entity and 'legalName' in entity`. -/
def extractLegalName (entity : Json) : String :=
  if jtruthy entity && jmember entity "legalName" then
    jstrD (jgetD (jgetD entity "legalName" (.obj [])) "name" (.str "")) ""
  else ""

/-- BIC extraction, lines 89-94: first element of the `bic` list, the value
itself when it is a string, and `''` otherwise. -/
def extractBic (attributes : Json) : String :=
  match jgetD attributes "bic" (.arr []) with
  | .arr [] => ""
  | .arr (x :: _) => jstrD x ""
  | .str s => s
  | _ => ""

/-- Country extraction, lines 97-99: `entity['legalAddress'].get('country', '')`
guarded by `if entity and 'legalAddress' in entity`. -/
def extractCountry (entity : Json) : String :=
  if jtruthy entity && jmember entity "legalAddress" then
    jstrD (jgetD (jgetD entity "legalAddress" (.obj [])) "country" (.str "")) ""
  else ""

/-- Record construction from the first response record, lines 79-105. -/
def extractRecord (leiRecord : Json) : Record :=
  let attributes := jgetD leiRecord "attributes" (.obj [])
  let entity := jgetD attributes "entity" (.obj [])
  { legalName := extractLegalName entity
    bic := extractBic attributes
    country := extractCountry entity }

/-- Outcome of one lookup attempt at the registry, seen by the `try` body:
a transport-level failure (`requests.exceptions.RequestException`, carrying
the exception text), a parse failure (the `KeyError, json.JSONDecodeError`
clause at line 127), or a parsed response body. -/
inductive Attempt where
  | transport (e : String)
  | malformed
  | success (body : Json)

/-- Message of the `LEIEnrichmentError` raised at line 125. -/
def failMsg (lei : String) (mr : ℕ) (e : String) : String :=
  "Failed to fetch data for LEI " ++ lei ++ " after " ++ toString mr
    ++ " attempts: " ++ e

/-- Observable outcome of `_fetch_lei_data`: the returned value (`none` models
Python falling off the loop and returning `None`) or the raised
`LEIEnrichmentError` message, plus the final cache, the `time.sleep`
durations performed in order, and the number of `requests.get` calls. -/
structure FetchOut where
  result : Except String (Option Record)
  cache : Cache
  sleeps : List ℚ
  calls : ℕ

/-- Body of the retry loop `for attempt in range(max_retries)` (lines 68-131),
processing the remaining attempt indices in order.  `resp` gives the network
outcome of each 0-indexed attempt.  Reaching the end of the list without
returning models the function returning `None`. -/
def fetchLoop (rld : ℚ) (resp : ℕ → Attempt) (lei : String) (mr : ℕ)
    (cache : Cache) : List ℕ → FetchOut
  | [] => ⟨.ok none, cache, [], 0⟩
  | attempt :: rest =>
    match resp attempt with
    | .success body =>
      if hasRecords body then
        let r := extractRecord (firstRecord body)
        ⟨.ok (some r), ainsert cache lei r, [rld], 1⟩
      else
        ⟨.ok (some Record.empty), ainsert cache lei Record.empty, [], 1⟩
    | .malformed =>
      ⟨.ok (some Record.empty), ainsert cache lei Record.empty, [], 1⟩
    | .transport e =>
      if attempt < mr - 1 then
        let o := fetchLoop rld resp lei mr cache rest
        ⟨o.result, o.cache, (2 : ℚ) ^ attempt :: o.sleeps, o.calls + 1⟩
      else
        ⟨.error (failMsg lei mr e), cache, [], 1⟩

/-- Method `_fetch_lei_data` (lines 48-131): cache check, then the retry
loop over attempts `0, 1, ..., max_retries - 1`. -/
def fetchLeiData (mr : ℕ) (rld : ℚ) (resp : ℕ → Attempt) (lei : String)
    (cache : Cache) : FetchOut :=
  match alookup cache lei with
  | some r => ⟨.ok (some r), cache, [], 0⟩
  | none => fetchLoop rld resp lei mr cache (List.range mr)

/-- Numeric value of a run of decimal digits. -/
def digitsVal (cs : List Char) : ℕ :=
  cs.foldl (fun n c => 10 * n + (c.toNat - 48)) 0

/-- Whitespace stripped by Python `float(string)`, for the one-byte
whitespace characters; other Unicode space characters (and non-ASCII digit
forms) are outside the model. -/
def isPySpace (c : Char) : Bool :=
  c = ' ' || c = '\t' || c = '\n' || c = '\r' || c = '\x0b' || c = '\x0c'
    || (28 ≤ c.toNat && c.toNat ≤ 31) || c = '\x85' || c = '\xa0'

/-- Strip leading and trailing whitespace. -/
def stripSpaces (cs : List Char) : List Char :=
  ((cs.dropWhile isPySpace).reverse.dropWhile isPySpace).reverse

/-- Scan for digit-group underscores: each underscore must sit directly
between two digits (`prev` is the previous character). -/
def undOk : Char → List Char → Bool
  | _, [] => true
  | prev, c :: rest =>
    if c = '_' then
      (prev.isDigit && (match rest with
        | d :: _ => d.isDigit
        | [] => false)) && undOk c rest
    else undOk c rest

/-- Underscore validity of a whole numeric literal (a leading underscore has
no digit before it). -/
def underscoresOk : List Char → Bool
  | [] => true
  | c :: rest => if c = '_' then false else undOk c rest

/-- Unsigned decimal mantissa `digits [. digits]` (at least one digit
overall, so `"12"`, `"12.5"`, `".5"`, `"5."`), as an exact rational. -/
def parseMantissa (cs : List Char) : Option ℚ :=
  let ip := cs.takeWhile Char.isDigit
  let rest := cs.dropWhile Char.isDigit
  match rest with
  | [] => if ip.isEmpty then none else some (digitsVal ip : ℚ)
  | c :: frac =>
    if c = '.' && frac.all Char.isDigit && !(ip.isEmpty && frac.isEmpty) then
      some ((digitsVal ip : ℚ) + (digitsVal frac : ℚ) / (10 : ℚ) ^ frac.length)
    else none

/-- Split a literal at its first exponent marker (input lower-cased). -/
def splitAtE (cs : List Char) : List Char × Option (List Char) :=
  match cs.dropWhile (fun c => c ≠ 'e') with
  | [] => (cs.takeWhile (fun c => c ≠ 'e'), none)
  | _ :: tail => (cs.takeWhile (fun c => c ≠ 'e'), some tail)

/-- Optionally signed decimal exponent. -/
def parseExpPart : List Char → Option ℤ
  | '+' :: ds =>
    if !ds.isEmpty && ds.all Char.isDigit then some (digitsVal ds : ℤ)
    else none
  | '-' :: ds =>
    if !ds.isEmpty && ds.all Char.isDigit then some (-(digitsVal ds : ℤ))
    else none
  | ds =>
    if !ds.isEmpty && ds.all Char.isDigit then some (digitsVal ds : ℤ)
    else none

/-- Scale by a signed power of ten. -/
def timesTenPow (q : ℚ) (e : ℤ) : ℚ :=
  if 0 ≤ e then q * (10 : ℚ) ^ e.toNat else q / (10 : ℚ) ^ (-e).toNat

/-- Python `float(string)`: strip whitespace, take an optional sign, then
either a case-insensitive `inf`/`infinity`/`nan` or a decimal literal
`digits [. digits] [e [sign] digits]` with digit-group underscores allowed
(Python 3.6+).  `none` models the `ValueError` raised on anything else. -/
def parsePyFloat (s : String) : Option PyF :=
  let cs := stripSpaces s.data
  let isNeg : Bool := match cs with
    | '-' :: _ => true
    | _ => false
  let cs2 := match cs with
    | '+' :: rest => rest
    | '-' :: rest => rest
    | _ => cs
  let low := cs2.map Char.toLower
  if low = "inf".data || low = "infinity".data then
    some (.spec (if isNeg then .ninf else .pinf))
  else if low = "nan".data then some (.spec .nan)
  else if underscoresOk cs2 then
    let cs3 := low.filter (fun c => c ≠ '_')
    match splitAtE cs3 with
    | (mant, none) =>
      (parseMantissa mant).map (fun m => .fin (if isNeg then -m else m))
    | (mant, some ec) =>
      match parseMantissa mant, parseExpPart ec with
      | some m, some e =>
        some (.fin (timesTenPow (if isNeg then -m else m) e))
      | _, _ => none
  else none

/-- Product of a finite float and a non-finite one (IEEE: zero times an
infinity is `nan`). -/
def mulFinSpec (a : ℚ) : Special → Special
  | .pinf => if 0 < a then .pinf else if a < 0 then .ninf else .nan
  | .ninf => if 0 < a then .ninf else if a < 0 then .pinf else .nan
  | .nan => .nan

/-- Product of two non-finite floats. -/
def mulSpecSpec : Special → Special → Special
  | .nan, _ => .nan
  | _, .nan => .nan
  | .pinf, .pinf => .pinf
  | .pinf, .ninf => .ninf
  | .ninf, .pinf => .ninf
  | .ninf, .ninf => .pinf

/-- Python float multiplication. -/
def pyMul : PyF → PyF → PyF
  | .fin a, .fin b => .fin (a * b)
  | .fin a, .spec s => .spec (mulFinSpec a s)
  | .spec s, .fin a => .spec (mulFinSpec a s)
  | .spec s1, .spec s2 => .spec (mulSpecSpec s1 s2)

/-- Python float subtraction (IEEE: same-signed infinities cancel to
`nan`). -/
def pySub : PyF → PyF → PyF
  | .fin a, .fin b => .fin (a - b)
  | .fin _, .spec .pinf => .spec .ninf
  | .fin _, .spec .ninf => .spec .pinf
  | .fin _, .spec .nan => .spec .nan
  | .spec s, .fin _ => .spec s
  | .spec .pinf, .spec .ninf => .spec .pinf
  | .spec .ninf, .spec .pinf => .spec .ninf
  | .spec _, .spec _ => .spec .nan

/-- Python `abs` on a float. -/
def pyAbs : PyF → PyF
  | .fin a => .fin |a|
  | .spec .nan => .spec .nan
  | .spec _ => .spec .pinf

/-- Python `1 / rate` behind the source's `rate != 0` guard (line 203):
finite reciprocal, `1/±inf` is (signed) zero, `1/nan` is `nan`.  `1 / 0.0`
would raise `ZeroDivisionError` but is unreachable behind the guard, so the
total function's value there is never consulted. -/
def pyOneDiv : PyF → PyF
  | .fin q => .fin (1 / q)
  | .spec .nan => .spec .nan
  | .spec _ => .fin 0

/-- Python `rate != 0` on a float: `inf` and `nan` both compare unequal to
zero. -/
def pyNe0 : PyF → Bool
  | .fin q => decide (q ≠ 0)
  | .spec _ => true

/-- Python `float(v)` on a cell value: numbers and non-finite floats pass
through, strings are parsed as Python float literals (otherwise
`ValueError`), `None` raises `TypeError`; `none` models the raised error,
which the calculator catches. -/
def pyFloat : Value → Option PyF
  | .num q => some (.fin q)
  | .nonfinite s => some (.spec s)
  | .str s => parsePyFloat s
  | .null => none

/-- Cell written back for a computed float. -/
def pyfValue : PyF → Value
  | .fin q => .num q
  | .spec s => .nonfinite s

/-- Python `s.upper()` on a string, character by character (the country codes
involved are ASCII). -/
def pyUpperStr (s : String) : String := ⟨s.data.map Char.toUpper⟩

/-- Python `v.upper()`: defined on strings; on any other value it raises
`AttributeError` (modelled by `none`), which `_calculate_transaction_costs`
does NOT catch. -/
def pyUpper : Value → Option String
  | .str s => some (pyUpperStr s)
  | _ => none

/-- Method `_calculate_transaction_costs` (lines 183-217).  `none` models an
exception escaping to the caller (only the uncaught `AttributeError` from
`.upper()` on a non-string country); `ValueError`/`TypeError` from the float
conversions are caught at line 215 and yield `0.0`. -/
def calcTransactionCosts (row : Row) : Option PyF :=
  match pyUpper (rowGetD row "country" (Value.str "")) with
  | none => none
  | some country =>
    match pyFloat (rowGetD row "notional" (Value.num 0)) with
    | none => some (.fin 0)
    | some notional =>
      match pyFloat (rowGetD row "rate" (Value.num 0)) with
      | none => some (.fin 0)
      | some rate =>
        some (if country = "GB" then pySub (pyMul notional rate) notional
          else if country = "NL" then
            if pyNe0 rate then
              pyAbs (pySub (pyMul notional (pyOneDiv rate)) notional)
            else .fin 0
          else .fin 0)

/-- Rule table stated from the specification's words (§4.3), for comparison
with the code's calculator: case-insensitive country match, `GB` and `NL`
formulas, zero-rate guard for `NL`, `0` for every other country. -/
def costSpec (country : String) (notional rate : ℚ) : ℚ :=
  let c := pyUpperStr country
  if c = "GB" then notional * rate - notional
  else if c = "NL" then
    if rate = 0 then 0 else |notional * (1 / rate) - notional|
  else 0

/-- DataFrame: column labels plus rows. -/
structure Frame where
  cols : List String
  rows : List Row
deriving DecidableEq, Repr

/-- Exception escaping `enrich_dataset`: the `LEIEnrichmentError` raised at
line 147 for a missing `lei` column, or the `AttributeError` raised at
line 169 when a stored per-LEI result is Python `None` (`None.get(...)`). -/
inductive EnrichError where
  | missingColumn
  | attributeError
deriving DecidableEq, Repr

/-- String content of a row's `lei` cell.  Per the data model (spec §3) `lei`
cells are strings; this is the value `enriched_data['lei']` maps over. -/
def rowLeiStr (row : Row) : String :=
  match rowGetD row "lei" Value.null with
  | .str s => s
  | _ => ""

/-- First-seen-order deduplication, the meaning of `Series.unique()`
(line 155), with an accumulator of already-seen codes. -/
def uniqueFirstAux (seen : List String) : List String → List String
  | [] => []
  | x :: xs =>
    if x ∈ seen then uniqueFirstAux seen xs
    else x :: uniqueFirstAux (x :: seen) xs

/-- Distinct LEI codes in first-seen order. -/
def uniqueFirst (l : List String) : List String := uniqueFirstAux [] l

/-- Value stored in `lei_info` for one LEI (lines 162-166): the fetch result
as returned (possibly Python `None`), or the all-empty record when the
raised `LEIEnrichmentError` is caught. -/
def storedFromE : Except String (Option Record) → Option Record
  | .ok r => r
  | .error _ => some Record.empty

/-- Observable outcome of the per-LEI resolution loop (lines 159-166). -/
structure ResolveOut where
  info : List (String × Option Record)
  cache : Cache
  sleeps : List ℚ
  calls : ℕ

/-- Resolution loop over the unique LEI codes (lines 159-166), threading the
cache through consecutive `_fetch_lei_data` calls. -/
def resolveAll (mr : ℕ) (rld : ℚ) (resp : String → ℕ → Attempt) :
    List String → Cache → ResolveOut
  | [], cache => ⟨[], cache, [], 0⟩
  | lei :: rest, cache =>
    let o := fetchLeiData mr rld (resp lei) lei cache
    let r := resolveAll mr rld resp rest o.cache
    ⟨(lei, storedFromE o.result) :: r.info, r.cache, o.sleeps ++ r.sleeps,
      o.calls + r.calls⟩

/-- Join of the per-LEI info onto one row (lines 169-171):
`lei_info.get(x, {}).get(field, '')` for the three fields.  A stored Python
`None` raises `AttributeError` (`None.get`), aborting the batch. -/
def joinRow (info : List (String × Option Record)) (row : Row) :
    Except EnrichError Row :=
  match alookup info (rowLeiStr row) with
  | some none => .error .attributeError
  | some (some r) =>
    .ok (setCol (setCol (setCol row "legalName" (.str r.legalName))
      "bic" (.str r.bic)) "country" (.str r.country))
  | none =>
    .ok (setCol (setCol (setCol row "legalName" (.str ""))
      "bic" (.str "")) "country" (.str ""))

/-- Full per-row transformation of `enrich_dataset`: join (lines 169-171),
cost calculation (line 175), and the drop of the transient `country` column
(line 178).  The source performs these columnwise; the per-row composition
has the same observable outcome, the first failing row aborting the batch. -/
def enrichRow (info : List (String × Option Record)) (row : Row) :
    Except EnrichError Row :=
  match joinRow info row with
  | .error e => .error e
  | .ok r =>
    match calcTransactionCosts r with
    | some f =>
      .ok (removeCol (setCol r "transaction_costs" (pyfValue f)) "country")
    | none => .error .attributeError

/-- Per-row transformation over all rows, in order. -/
def enrichRows (info : List (String × Option Record)) :
    List Row → Except EnrichError (List Row)
  | [] => .ok []
  | r :: rs =>
    match enrichRow info r with
    | .error e => .error e
    | .ok r2 =>
      match enrichRows info rs with
      | .error e => .error e
      | .ok rs2 => .ok (r2 :: rs2)

/-- New column label, appended when absent (pandas column assignment). -/
def addColName (cols : List String) (k : String) : List String :=
  if k ∈ cols then cols else cols ++ [k]

/-- Column label removal (`drop(k, axis=1)` on the label list). -/
def removeColName : List String → String → List String
  | [], _ => []
  | c :: rest, k => if c = k then removeColName rest k else c :: removeColName rest k

/-- Observable outcome of `enrich_dataset`: the returned frame or the escaping
exception, the final cache, the sleeps performed and the requests issued. -/
structure EnrichOut where
  result : Except EnrichError Frame
  cache : Cache
  sleeps : List ℚ
  calls : ℕ
deriving Repr

/-- Method `enrich_dataset` (lines 133-181): structural column check, copy of
the input (the model is pure, so the input frame is untouched by
construction), unique-LEI resolution, join, cost calculation, drop of the
transient `country` column. -/
def enrichDataset (mr : ℕ) (rld : ℚ) (resp : String → ℕ → Attempt)
    (cache : Cache) (input : Frame) : EnrichOut :=
  if "lei" ∈ input.cols then
    let leis := uniqueFirst (input.rows.map rowLeiStr)
    let ro := resolveAll mr rld resp leis cache
    let newCols := removeColName (addColName (addColName (addColName
      (addColName input.cols "legalName") "bic") "country")
      "transaction_costs") "country"
    match enrichRows ro.info input.rows with
    | .ok rows2 => ⟨.ok ⟨newCols, rows2⟩, ro.cache, ro.sleeps, ro.calls⟩
    | .error e => ⟨.error e, ro.cache, ro.sleeps, ro.calls⟩
  else ⟨.error .missingColumn, cache, [], 0⟩

/-- JSON object written for one cached record by `json.dump` (line 223). -/
def recordToJson (r : Record) : Json :=
  .obj [("legalName", .str r.legalName), ("bic", .str r.bic),
    ("country", .str r.country)]

/-- Method `save_cache` (lines 219-226): the persisted JSON object's entries,
one per cache entry, in order. -/
def saveCache (c : Cache) : List (String × Json) :=
  c.map (fun p => (p.1, recordToJson p.2))

/-- Typed reading of one persisted record.  The source keeps the parsed dict
and all downstream reads go through `.get(field, '')` (lines 169-171), which
is exactly this projection. -/
def decodeRecord (j : Json) : Record :=
  { legalName := jstrD (jgetD j "legalName" (.str "")) ""
    bic := jstrD (jgetD j "bic" (.str "")) ""
    country := jstrD (jgetD j "country" (.str "")) "" }

/-- Persisted cache source as seen by `load_cache` (lines 228-236): the file
is missing, its content fails to parse (`json.load` raises), or it parses to
a JSON object with the given entries.  A file parsing to a non-object JSON
value leaves the in-memory state outside the `Cache` type and is not
modelled; no claim exercises it. -/
inductive CacheSource where
  | missing
  | malformed
  | parsed (kvs : List (String × Json))

/-- In-memory cache rebuilt from the entries of a parsed cache file. -/
def loadCacheJson (kvs : List (String × Json)) : Cache :=
  kvs.map (fun p => (p.1, decodeRecord p.2))

/-- Method `load_cache` (lines 228-236): a missing file is skipped, a parse
failure is caught by `except Exception` and only logged (the in-memory cache
keeps its previous value), a parsed object replaces the cache.  No error ever
escapes to the caller. -/
def loadCache (src : CacheSource) (c : Cache) : Except String Cache :=
  match src with
  | .missing => .ok c
  | .malformed => .ok c
  | .parsed kvs => .ok (loadCacheJson kvs)

/-! Helper lemmas about association lists, rows and the fetch loop. -/

theorem alookup_map_set_self {α : Type} (l : List (String × α)) (k : String)
    (v : α) (h : (alookup l k).isSome) :
    alookup (l.map (fun p => if p.1 = k then (k, v) else p)) k = some v := by
  induction l with
  | nil => simp [alookup] at h
  | cons p rest ih =>
    by_cases hp : p.1 = k
    · simp [alookup, hp]
    · simp only [alookup, hp, if_false] at h
      simp [alookup, hp, ih h]

theorem alookup_append_single_self {α : Type} (l : List (String × α))
    (k : String) (v : α) (h : alookup l k = none) :
    alookup (l ++ [(k, v)]) k = some v := by
  induction l with
  | nil => simp [alookup]
  | cons p rest ih =>
    by_cases hp : p.1 = k
    · simp [alookup, hp] at h
    · simp only [alookup, hp, if_false] at h
      simp [alookup, hp, ih h]

theorem alookup_map_set_ne {α : Type} (l : List (String × α)) (k k2 : String)
    (v : α) (h : k2 ≠ k) :
    alookup (l.map (fun p => if p.1 = k then (k, v) else p)) k2 = alookup l k2 := by
  induction l with
  | nil => simp [alookup]
  | cons p rest ih =>
    by_cases hp : p.1 = k
    · have hne : ¬ (k = k2) := fun hc => h hc.symm
      have hne2 : ¬ (p.1 = k2) := fun hc => h (hc ▸ hp)
      simp [alookup, hp, hne, hne2, ih]
    · by_cases hp2 : p.1 = k2
      · simp [alookup, hp, hp2, h]
      · simp [alookup, hp, hp2, ih]

theorem alookup_append_single_ne {α : Type} (l : List (String × α))
    (k k2 : String) (v : α) (h : k2 ≠ k) :
    alookup (l ++ [(k, v)]) k2 = alookup l k2 := by
  have hnk : ¬ (k = k2) := fun hc => h hc.symm
  induction l with
  | nil => simp [alookup, hnk]
  | cons p rest ih =>
    by_cases hp : p.1 = k2
    · simp [alookup, hp]
    · simp [alookup, hp, ih]

theorem alookup_ainsert_self {α : Type} (l : List (String × α)) (k : String)
    (v : α) : alookup (ainsert l k v) k = some v := by
  unfold ainsert
  by_cases h : (alookup l k).isSome
  · simp only [h, if_true]
    exact alookup_map_set_self l k v h
  · simp only [h, if_false]
    exact alookup_append_single_self l k v (by
      cases hl : alookup l k
      · rfl
      · rw [hl] at h; simp at h)

theorem alookup_ainsert_ne {α : Type} (l : List (String × α)) (k k2 : String)
    (v : α) (h : k2 ≠ k) : alookup (ainsert l k v) k2 = alookup l k2 := by
  unfold ainsert
  by_cases hs : (alookup l k).isSome
  · simp only [hs, if_true]
    exact alookup_map_set_ne l k k2 v h
  · simp only [hs, if_false]
    exact alookup_append_single_ne l k k2 v h

theorem alookup_mem {α : Type} (l : List (String × α)) (k : String) (v : α)
    (h : alookup l k = some v) : (k, v) ∈ l := by
  induction l with
  | nil => simp [alookup] at h
  | cons p rest ih =>
    rcases p with ⟨a, b⟩
    by_cases hp : a = k
    · simp only [alookup, hp, if_true] at h
      injection h with hv
      subst hp
      subst hv
      exact List.mem_cons_self _ _
    · simp only [alookup, if_neg hp] at h
      exact List.mem_cons_of_mem _ (ih h)

theorem rowGetD_setCol_self (row : Row) (k : String) (v d : Value) :
    rowGetD (setCol row k v) k d = v := by
  simp [rowGetD, setCol, alookup_ainsert_self]

theorem rowGetD_setCol_ne (row : Row) (k k2 : String) (v d : Value)
    (h : k2 ≠ k) : rowGetD (setCol row k v) k2 d = rowGetD row k2 d := by
  simp [rowGetD, setCol, alookup_ainsert_ne _ _ _ _ h]

theorem alookup_removeCol_ne (row : Row) (k k2 : String) (h : k2 ≠ k) :
    alookup (removeCol row k) k2 = alookup row k2 := by
  induction row with
  | nil => simp [removeCol]
  | cons p rest ih =>
    rcases p with ⟨a, b⟩
    by_cases hp : a = k
    · have hne : ¬ (a = k2) := fun hc => h (by rw [← hc, hp])
      have hnk : ¬ (k = k2) := fun hc => h hc.symm
      simp [removeCol, hp, alookup, hne, hnk, ih]
    · by_cases hp2 : a = k2
      · simp [removeCol, hp, alookup, hp2, h]
      · simp [removeCol, hp, alookup, hp2, ih]

theorem rowGetD_removeCol_ne (row : Row) (k k2 : String) (d : Value)
    (h : k2 ≠ k) : rowGetD (removeCol row k) k2 d = rowGetD row k2 d := by
  simp [rowGetD, alookup_removeCol_ne _ _ _ h]

/-! Facts about the retry loop. -/

/-- Observable parts of the loop (result, sleeps, request count) do not
depend on the cache it starts from. -/
theorem fetchLoop_indep (rld : ℚ) (resp : ℕ → Attempt) (lei : String)
    (mr : ℕ) (c1 c2 : Cache) (l : List ℕ) :
    (fetchLoop rld resp lei mr c1 l).result = (fetchLoop rld resp lei mr c2 l).result ∧
    (fetchLoop rld resp lei mr c1 l).sleeps = (fetchLoop rld resp lei mr c2 l).sleeps ∧
    (fetchLoop rld resp lei mr c1 l).calls = (fetchLoop rld resp lei mr c2 l).calls := by
  induction l with
  | nil => exact ⟨rfl, rfl, rfl⟩
  | cons attempt rest ih =>
    cases hr : resp attempt with
    | success body =>
      by_cases hd : hasRecords body <;> simp [fetchLoop, hr, hd]
    | malformed => simp [fetchLoop, hr]
    | transport e =>
      by_cases hl : attempt < mr - 1
      · simp [fetchLoop, hr, hl, ih.1, ih.2.1, ih.2.2]
      · simp [fetchLoop, hr, hl]

/-- The loop only ever writes the cache entry of the LEI it is resolving. -/
theorem fetchLoop_cache_ne (rld : ℚ) (resp : ℕ → Attempt) (lei : String)
    (mr : ℕ) (c : Cache) (l : List ℕ) (k : String) (h : k ≠ lei) :
    alookup (fetchLoop rld resp lei mr c l).cache k = alookup c k := by
  induction l generalizing c with
  | nil => rfl
  | cons attempt rest ih =>
    cases hr : resp attempt with
    | success body =>
      by_cases hd : hasRecords body <;>
        simp [fetchLoop, hr, hd, alookup_ainsert_ne _ _ _ _ h]
    | malformed => simp [fetchLoop, hr, alookup_ainsert_ne _ _ _ _ h]
    | transport e =>
      by_cases hl : attempt < mr - 1
      · simp [fetchLoop, hr, hl, ih]
      · simp [fetchLoop, hr, hl]

/-- On a nonempty tail of the attempt range the loop cannot fall through and
return Python `None`. -/
theorem fetchLoop_ne_none (rld : ℚ) (resp : ℕ → Attempt) (lei : String)
    (mr : ℕ) (c : Cache) (a k : ℕ) (hk : 1 ≤ k) (ha : a + k = mr) :
    (fetchLoop rld resp lei mr c (List.range' a k)).result ≠ .ok none := by
  induction k generalizing a c with
  | zero => omega
  | succ n ih =>
    cases hr : resp a with
    | success body =>
      by_cases hd : hasRecords body <;> simp [List.range', fetchLoop, hr, hd]
    | malformed => simp [List.range', fetchLoop, hr]
    | transport e =>
      by_cases hl : a < mr - 1
      · have hn : 1 ≤ n := by omega
        have ha2 : (a + 1) + n = mr := by omega
        have hih := ih c (a + 1) hn ha2
        simp [List.range', fetchLoop, hr, hl]
        exact hih
      · simp [List.range', fetchLoop, hr, hl]

/-- Exhaustive transport failure: the loop raises the final
`LEIEnrichmentError`, leaves the cache untouched, performs exactly the
exponential backoff waits `2^a, ..., 2^(mr-2)` (none after the final
attempt), and issues one request per attempt. -/
theorem fetchLoop_all_transport (rld : ℚ) (resp : ℕ → Attempt) (lei : String)
    (mr : ℕ) (c : Cache) (es : ℕ → String) (a k : ℕ) (hk : 1 ≤ k)
    (ha : a + k = mr) (hfail : ∀ j, j < mr → resp j = .transport (es j)) :
    (fetchLoop rld resp lei mr c (List.range' a k)).result
        = .error (failMsg lei mr (es (mr - 1))) ∧
    (fetchLoop rld resp lei mr c (List.range' a k)).cache = c ∧
    (fetchLoop rld resp lei mr c (List.range' a k)).sleeps
        = (List.range' a (k - 1)).map (fun t => (2 : ℚ) ^ t) ∧
    (fetchLoop rld resp lei mr c (List.range' a k)).calls = k := by
  induction k generalizing a c with
  | zero => omega
  | succ n ih =>
    have hr : resp a = .transport (es a) := hfail a (by omega)
    by_cases hl : a < mr - 1
    · have hn : 1 ≤ n := by omega
      have ha2 : (a + 1) + n = mr := by omega
      have ihh := ih c (a + 1) hn ha2
      refine ⟨?_, ?_, ?_, ?_⟩
      · simp [List.range', fetchLoop, hr, hl, ihh.1]
      · simp [List.range', fetchLoop, hr, hl, ihh.2.1]
      · have hrange : List.range' a n = a :: List.range' (a + 1) (n - 1) := by
          obtain ⟨m, rfl⟩ : ∃ m, n = m + 1 := ⟨n - 1, by omega⟩
          simp [List.range']
        simp [List.range', fetchLoop, hr, hl, ihh.2.2.1, hrange]
      · simp [List.range', fetchLoop, hr, hl, ihh.2.2.2]
    · have hn : n = 0 := by omega
      have haeq : a = mr - 1 := by omega
      subst hn
      subst haeq
      refine ⟨?_, ?_, ?_, ?_⟩ <;>
        simp [List.range', fetchLoop, hr, hl]

/-- On a cache miss with at least one attempt allowed, `_fetch_lei_data`
cannot return Python `None`. -/
theorem fetchLeiData_ne_none (mr : ℕ) (rld : ℚ) (resp : ℕ → Attempt)
    (lei : String) (cache : Cache) (hmr : 1 ≤ mr) :
    (fetchLeiData mr rld resp lei cache).result ≠ .ok none := by
  unfold fetchLeiData
  cases hc : alookup cache lei with
  | some r => intro hcon; cases hcon
  | none =>
    rw [List.range_eq_range']
    exact fetchLoop_ne_none rld resp lei mr cache 0 mr hmr (by omega)

/-- The fetch only ever touches the cache entry of its own LEI. -/
theorem fetchLeiData_cache_ne (mr : ℕ) (rld : ℚ) (resp : ℕ → Attempt)
    (lei : String) (cache : Cache) (k : String) (h : k ≠ lei) :
    alookup (fetchLeiData mr rld resp lei cache).cache k = alookup cache k := by
  unfold fetchLeiData
  cases hc : alookup cache lei with
  | some r => rfl
  | none => exact fetchLoop_cache_ne rld resp lei mr cache _ k h

/-- On a cache miss the fetch outcome (result, sleeps, request count) is the
outcome of running from the empty cache: the loop never reads the cache. -/
theorem fetchLeiData_miss_indep (mr : ℕ) (rld : ℚ) (resp : ℕ → Attempt)
    (lei : String) (cache : Cache) (h : alookup cache lei = none) :
    (fetchLeiData mr rld resp lei cache).result
        = (fetchLeiData mr rld resp lei []).result ∧
    (fetchLeiData mr rld resp lei cache).sleeps
        = (fetchLeiData mr rld resp lei []).sleeps ∧
    (fetchLeiData mr rld resp lei cache).calls
        = (fetchLeiData mr rld resp lei []).calls := by
  unfold fetchLeiData
  rw [h]
  have hnil : alookup ([] : Cache) lei = none := rfl
  rw [hnil]
  exact fetchLoop_indep rld resp lei mr cache [] (List.range mr)

/-! Facts about first-seen deduplication (`Series.unique`). -/

theorem mem_uniqueFirstAux (seen : List String) (l : List String)
    (y : String) : y ∈ uniqueFirstAux seen l ↔ (y ∈ l ∧ y ∉ seen) := by
  induction l generalizing seen with
  | nil => simp [uniqueFirstAux]
  | cons x xs ih =>
    by_cases hx : x ∈ seen
    · rw [uniqueFirstAux, if_pos hx, ih]
      constructor
      · rintro ⟨hy, hn⟩
        exact ⟨List.mem_cons_of_mem _ hy, hn⟩
      · rintro ⟨hy, hn⟩
        rcases List.mem_cons.mp hy with rfl | hy2
        · exact absurd hx hn
        · exact ⟨hy2, hn⟩
    · rw [uniqueFirstAux, if_neg hx]
      constructor
      · intro hmem
        rcases List.mem_cons.mp hmem with rfl | hm2
        · exact ⟨List.mem_cons_self _ _, hx⟩
        · rcases (ih (x :: seen)).mp hm2 with ⟨hy, hn⟩
          exact ⟨List.mem_cons_of_mem _ hy,
            fun hc => hn (List.mem_cons_of_mem _ hc)⟩
      · rintro ⟨hy, hn⟩
        rcases List.mem_cons.mp hy with rfl | hy2
        · exact List.mem_cons_self _ _
        · by_cases hyx : y = x
          · exact hyx ▸ List.mem_cons_self _ _
          · refine List.mem_cons_of_mem _ ((ih (x :: seen)).mpr ⟨hy2, ?_⟩)
            intro hc
            rcases List.mem_cons.mp hc with hk | hk
            · exact hyx hk
            · exact hn hk

theorem mem_uniqueFirst (l : List String) (y : String) :
    y ∈ uniqueFirst l ↔ y ∈ l := by
  simp [uniqueFirst, mem_uniqueFirstAux]

theorem nodup_uniqueFirstAux (seen : List String) (l : List String) :
    (uniqueFirstAux seen l).Nodup := by
  induction l generalizing seen with
  | nil => simp [uniqueFirstAux]
  | cons x xs ih =>
    by_cases hx : x ∈ seen
    · simpa [uniqueFirstAux, if_pos hx] using ih seen
    · rw [uniqueFirstAux, if_neg hx]
      refine List.Nodup.cons ?_ (ih (x :: seen))
      intro hc
      have hm := (mem_uniqueFirstAux (x :: seen) xs x).mp hc
      exact hm.2 (List.mem_cons_self _ _)

theorem nodup_uniqueFirst (l : List String) : (uniqueFirst l).Nodup :=
  nodup_uniqueFirstAux [] l

/-! Facts about the per-LEI resolution loop of the orchestrator. -/

/-- With at least one attempt allowed, every stored per-LEI value is a real
record (never Python `None`). -/
theorem resolveAll_info_some (mr : ℕ) (rld : ℚ) (resp : String → ℕ → Attempt)
    (hmr : 1 ≤ mr) (leis : List String) (cache : Cache) :
    ∀ p ∈ (resolveAll mr rld resp leis cache).info, p.2.isSome := by
  induction leis generalizing cache with
  | nil => intro p hp; simp [resolveAll] at hp
  | cons lei rest ih =>
    intro p hp
    simp only [resolveAll, List.mem_cons] at hp
    rcases hp with rfl | hp
    · cases hres : (fetchLeiData mr rld (resp lei) lei cache).result with
      | ok r =>
        cases r with
        | some v => simp [storedFromE, hres]
        | none => exact absurd hres (fetchLeiData_ne_none mr rld _ lei cache hmr)
      | error e => simp [storedFromE, hres]
    · exact ih _ p hp

/-- The resolution loop leaves cache entries of unprocessed keys alone. -/
theorem resolveAll_cache_ne (mr : ℕ) (rld : ℚ) (resp : String → ℕ → Attempt)
    (leis : List String) (cache : Cache) (k : String) (h : k ∉ leis) :
    alookup (resolveAll mr rld resp leis cache).cache k = alookup cache k := by
  induction leis generalizing cache with
  | nil => rfl
  | cons lei rest ih =>
    have hk : k ≠ lei := fun hc => h (hc ▸ List.mem_cons_self _ _)
    have hr : k ∉ rest := fun hc => h (List.mem_cons_of_mem _ hc)
    simp only [resolveAll]
    rw [ih _ hr, fetchLeiData_cache_ne mr rld _ lei cache k hk]

/-- Over pairwise-distinct LEI codes none of which is cached, each stored
value equals the outcome of a standalone fetch from an empty cache: the
resolutions are independent of one another. -/
theorem resolveAll_lookup (mr : ℕ) (rld : ℚ) (resp : String → ℕ → Attempt)
    (leis : List String) (cache : Cache) (hnd : leis.Nodup)
    (hfresh : ∀ l ∈ leis, alookup cache l = none) :
    ∀ l ∈ leis, alookup (resolveAll mr rld resp leis cache).info l
      = some (storedFromE (fetchLeiData mr rld (resp l) l []).result) := by
  induction leis generalizing cache with
  | nil => intro l hl; simp at hl
  | cons lei rest ih =>
    intro l hl
    have hmiss : alookup cache lei = none :=
      hfresh lei (List.mem_cons_self _ _)
    rcases List.mem_cons.mp hl with rfl | hl2
    · have hind := fetchLeiData_miss_indep mr rld (resp l) l cache hmiss
      simp [resolveAll, alookup, hind.1]
    · have hne : l ≠ lei := by
        rintro rfl
        exact (List.nodup_cons.mp hnd).1 hl2
      simp only [resolveAll, alookup]
      rw [if_neg (fun hc => hne (by simpa using hc.symm))]
      refine ih (fetchLeiData mr rld (resp lei) lei cache).cache ?_ ?_ l hl2
      · exact (List.nodup_cons.mp hnd).2
      · intro l2 hl2b
        have hne2 : l2 ≠ lei := by
          rintro rfl
          exact (List.nodup_cons.mp hnd).1 hl2b
        rw [fetchLeiData_cache_ne mr rld _ lei cache l2 hne2]
        exact hfresh l2 (List.mem_cons_of_mem _ hl2b)

/-- Record effectively used for a LEI by the join: the stored record, or the
all-empty record when the LEI is absent from the info map (the `.get(x, {})`
default) — never consulted for stored Python `None` under `1 ≤ mr`. -/
def recOf (info : List (String × Option Record)) (l : String) : Record :=
  match alookup info l with
  | some (some r) => r
  | _ => Record.empty

/-- The calculator never raises when the row's country cell is a string. -/
theorem calc_some_of_country_str (row : Row) (c : String)
    (h : rowGetD row "country" (Value.str "") = Value.str c) :
    ∃ f, calcTransactionCosts row = some f := by
  unfold calcTransactionCosts
  rw [h]
  simp only [pyUpper]
  cases pyFloat (rowGetD row "notional" (Value.num 0)) with
  | none => exact ⟨_, rfl⟩
  | some n =>
    cases pyFloat (rowGetD row "rate" (Value.num 0)) with
    | none => exact ⟨_, rfl⟩
    | some r => exact ⟨_, rfl⟩

/-- When every stored value is a real record, the join succeeds and writes
the three fields of the effective record. -/
theorem joinRow_ok (info : List (String × Option Record)) (row : Row)
    (hsome : ∀ p ∈ info, p.2.isSome) :
    joinRow info row = .ok (setCol (setCol (setCol row "legalName"
      (.str (recOf info (rowLeiStr row)).legalName)) "bic"
      (.str (recOf info (rowLeiStr row)).bic)) "country"
      (.str (recOf info (rowLeiStr row)).country)) := by
  cases hli : alookup info (rowLeiStr row) with
  | none => simp [joinRow, recOf, hli, Record.empty]
  | some stored =>
    cases stored with
    | none =>
      have hs := hsome _ (alookup_mem _ _ _ hli)
      simp at hs
    | some r => simp [joinRow, recOf, hli]

/-- When every stored value is a real record, the per-row transformation
succeeds, preserves every column other than the four it writes or drops, and
writes the effective record's `legalName` and `bic`. -/
theorem enrichRow_ok (info : List (String × Option Record)) (row : Row)
    (hsome : ∀ p ∈ info, p.2.isSome) :
    ∃ r2, enrichRow info row = .ok r2 ∧
      (∀ k d, k ≠ "legalName" → k ≠ "bic" → k ≠ "country" →
        k ≠ "transaction_costs" → rowGetD r2 k d = rowGetD row k d) ∧
      rowGetD r2 "legalName" Value.null
          = .str (recOf info (rowLeiStr row)).legalName ∧
      rowGetD r2 "bic" Value.null = .str (recOf info (rowLeiStr row)).bic := by
  have hj := joinRow_ok info row hsome
  obtain ⟨f, hf⟩ := calc_some_of_country_str
    (setCol (setCol (setCol row "legalName"
      (.str (recOf info (rowLeiStr row)).legalName)) "bic"
      (.str (recOf info (rowLeiStr row)).bic)) "country"
      (.str (recOf info (rowLeiStr row)).country))
    (recOf info (rowLeiStr row)).country
    (rowGetD_setCol_self _ _ _ _)
  refine ⟨removeCol (setCol (setCol (setCol (setCol row "legalName"
      (.str (recOf info (rowLeiStr row)).legalName)) "bic"
      (.str (recOf info (rowLeiStr row)).bic)) "country"
      (.str (recOf info (rowLeiStr row)).country)) "transaction_costs"
      (pyfValue f)) "country", ?_, ?_, ?_, ?_⟩
  · simp [enrichRow, hj, hf]
  · intro k d h1 h2 h3 h4
    rw [rowGetD_removeCol_ne _ _ _ _ h3, rowGetD_setCol_ne _ _ _ _ _ h4,
      rowGetD_setCol_ne _ _ _ _ _ h3, rowGetD_setCol_ne _ _ _ _ _ h2,
      rowGetD_setCol_ne _ _ _ _ _ h1]
  · rw [rowGetD_removeCol_ne _ _ _ _ (by decide),
      rowGetD_setCol_ne _ _ _ _ _ (by decide),
      rowGetD_setCol_ne _ _ _ _ _ (by decide),
      rowGetD_setCol_ne _ _ _ _ _ (by decide),
      rowGetD_setCol_self]
  · rw [rowGetD_removeCol_ne _ _ _ _ (by decide),
      rowGetD_setCol_ne _ _ _ _ _ (by decide),
      rowGetD_setCol_ne _ _ _ _ _ (by decide),
      rowGetD_setCol_self]

/-- Rowwise success and 1-1 order-preserving correspondence of the whole
per-row pass. -/
theorem enrichRows_ok (info : List (String × Option Record))
    (hsome : ∀ p ∈ info, p.2.isSome) (rows : List Row) :
    ∃ out, enrichRows info rows = .ok out ∧ out.length = rows.length ∧
      ∀ i, i < rows.length →
        enrichRow info (rows.getD i []) = .ok (out.getD i []) := by
  induction rows with
  | nil =>
    refine ⟨[], rfl, rfl, ?_⟩
    intro i hi
    exact absurd hi (Nat.not_lt_zero i)
  | cons r rs ih =>
    obtain ⟨out, hout, hlen, hidx⟩ := ih
    obtain ⟨r2, hr2, _, _, _⟩ := enrichRow_ok info r hsome
    refine ⟨r2 :: out, ?_, ?_, ?_⟩
    · simp [enrichRows, hr2, hout]
    · simp [hlen]
    · intro i hi
      cases i with
      | zero => simpa using hr2
      | succ n => simpa using hidx n (by simpa using hi)

/-- Shared orchestrator fact: with the `lei` column present and at least one
retry attempt allowed, `enrich_dataset` returns a frame with exactly one
output row per input row, in input order, row `i` of the output arising from
row `i` of the input by the per-row transformation over the resolved info. -/
theorem enrichDataset_spec (mr : ℕ) (rld : ℚ) (resp : String → ℕ → Attempt)
    (cache : Cache) (input : Frame) (hmr : 1 ≤ mr)
    (hlei : "lei" ∈ input.cols) :
    ∃ out, (enrichDataset mr rld resp cache input).result = .ok out ∧
      out.rows.length = input.rows.length ∧
      ∀ i, i < input.rows.length →
        enrichRow (resolveAll mr rld resp
            (uniqueFirst (input.rows.map rowLeiStr)) cache).info
          (input.rows.getD i []) = .ok (out.rows.getD i []) := by
  have hsome := resolveAll_info_some mr rld resp hmr
    (uniqueFirst (input.rows.map rowLeiStr)) cache
  obtain ⟨rows2, hrows2, hlen, hidx⟩ := enrichRows_ok _ hsome input.rows
  refine ⟨⟨removeColName (addColName (addColName (addColName
    (addColName input.cols "legalName") "bic") "country")
    "transaction_costs") "country", rows2⟩, ?_, hlen, hidx⟩
  simp [enrichDataset, hlei, hrows2]

/-- Outcome of resolving one LEI standalone from an empty cache, with the
orchestrator's catch applied (lines 162-166): the fetch result as stored in
`lei_info`, the caught `LEIEnrichmentError` replaced by the all-empty
record. -/
def storedRec (mr : ℕ) (rld : ℚ) (resp : String → ℕ → Attempt)
    (l : String) : Option Record :=
  storedFromE (fetchLeiData mr rld (resp l) l []).result

/-- Element picked by `getD` at a valid index is an element of the list. -/
theorem getD_mem_of_lt {α : Type} (l : List α) (i : ℕ) (d : α)
    (hi : i < l.length) : l.getD i d ∈ l := by
  induction l generalizing i with
  | nil => simp at hi
  | cons x xs ih =>
    cases i with
    | zero => simp
    | succ n =>
      simp only [List.getD_cons_succ]
      exact List.mem_cons_of_mem _ (ih n (by simpa using hi))

/-- C1: for every input table that has an `lei` column (and the spec's
configuration of at least one retry attempt, default 3), `enrich_dataset`
returns a table with exactly one output row per input row, in the same order
as the input: output row `i` agrees with input row `i` on every column other
than the written `legalName`, `bic`, `transaction_costs` and the dropped
`country`.  The embedding is pure, so the input frame itself is untouched
(the source copies it at line 152). -/
theorem C1_row_count_and_order (mr : ℕ) (rld : ℚ)
    (resp : String → ℕ → Attempt) (cache : Cache) (input : Frame)
    (hlei : "lei" ∈ input.cols) (hmr : 1 ≤ mr) :
    ∃ out, (enrichDataset mr rld resp cache input).result = .ok out ∧
      out.rows.length = input.rows.length ∧
      ∀ i, i < input.rows.length → ∀ k d, k ≠ "legalName" → k ≠ "bic" →
        k ≠ "country" → k ≠ "transaction_costs" →
        rowGetD (out.rows.getD i []) k d
          = rowGetD (input.rows.getD i []) k d := by
  obtain ⟨out, hres, hlen, hidx⟩ :=
    enrichDataset_spec mr rld resp cache input hmr hlei
  refine ⟨out, hres, hlen, ?_⟩
  intro i hi k d h1 h2 h3 h4
  have hsome := resolveAll_info_some mr rld resp hmr
    (uniqueFirst (input.rows.map rowLeiStr)) cache
  obtain ⟨r2, hr2, hpres, _, _⟩ := enrichRow_ok _ (input.rows.getD i []) hsome
  have hcomb := hidx i hi
  rw [hr2] at hcomb
  injection hcomb with heq
  rw [← heq]
  exact hpres k d h1 h2 h3 h4

/-- Witness for C1 at a concrete one-row table. -/
theorem C1_row_count_and_order_witness :
    "lei" ∈ (Frame.mk ["lei"] [[("lei", Value.str "A")]]).cols ∧ 1 ≤ 3 ∧
    (∃ out, (enrichDataset 3 0 (fun _ _ => Attempt.malformed) []
        (Frame.mk ["lei"] [[("lei", Value.str "A")]])).result = .ok out ∧
      out.rows.length
        = (Frame.mk ["lei"] [[("lei", Value.str "A")]]).rows.length ∧
      ∀ i, i < (Frame.mk ["lei"] [[("lei", Value.str "A")]]).rows.length →
        ∀ k d, k ≠ "legalName" → k ≠ "bic" → k ≠ "country" →
        k ≠ "transaction_costs" →
        rowGetD (out.rows.getD i []) k d
          = rowGetD ((Frame.mk ["lei"]
              [[("lei", Value.str "A")]]).rows.getD i []) k d) :=
  ⟨by decide, by decide,
    C1_row_count_and_order 3 0 (fun _ _ => Attempt.malformed) []
      (Frame.mk ["lei"] [[("lei", Value.str "A")]]) (by decide) (by decide)⟩

/-- C2: on every row whose country cell is a string and whose notional and
rate cells are numbers, the calculator raises nothing and returns exactly
the specification's closed rule table (GB, NL with zero-rate guard, else 0)
after upper-casing the country. -/
theorem C2_cost_rule_table (row : Row) (c : String) (n r : ℚ)
    (hc : rowGetD row "country" (Value.str "") = Value.str c)
    (hn : rowGetD row "notional" (Value.num 0) = Value.num n)
    (hr : rowGetD row "rate" (Value.num 0) = Value.num r) :
    calcTransactionCosts row = some (PyF.fin (costSpec c n r)) := by
  unfold calcTransactionCosts costSpec
  rw [hc, hn, hr]
  simp only [pyUpper, pyFloat]
  by_cases h1 : pyUpperStr c = "GB"
  · simp [h1, pyMul, pySub]
  · by_cases h2 : pyUpperStr c = "NL"
    · by_cases h3 : r = 0 <;>
        simp [h1, h2, h3, pyNe0, pyMul, pySub, pyAbs, pyOneDiv]
    · simp [h1, h2]

/-- Witness for C2 at the spec's own example: lower-case `gb`, notional
1000, rate 1.05. -/
theorem C2_cost_rule_table_witness :
    rowGetD [("country", Value.str "gb"), ("notional", Value.num 1000),
        ("rate", Value.num (21 / 20))] "country" (Value.str "")
      = Value.str "gb" ∧
    rowGetD [("country", Value.str "gb"), ("notional", Value.num 1000),
        ("rate", Value.num (21 / 20))] "notional" (Value.num 0)
      = Value.num 1000 ∧
    rowGetD [("country", Value.str "gb"), ("notional", Value.num 1000),
        ("rate", Value.num (21 / 20))] "rate" (Value.num 0)
      = Value.num (21 / 20) ∧
    calcTransactionCosts [("country", Value.str "gb"),
        ("notional", Value.num 1000), ("rate", Value.num (21 / 20))]
      = some (PyF.fin (costSpec "gb" 1000 (21 / 20))) :=
  ⟨rfl, rfl, rfl,
    C2_cost_rule_table _ "gb" 1000 (21 / 20) rfl rfl rfl⟩

/-- C3 counterexample: a row with country `GB`, notional 100 and a MISSING
rate gets cost `-100`, not `0` — `row.get('rate', 0)` defaults the missing
rate to the number 0 and the GB formula then yields `notional*0 - notional`.
This refutes the claim that every row with missing notional or rate cost 0. -/
theorem C3_counterexample :
    calcTransactionCosts [("country", Value.str "GB"),
        ("notional", Value.num 100)] = some (PyF.fin (-100)) ∧
    (-100 : ℚ) ≠ 0 := by
  have h1 : pyUpperStr "GB" = "GB" := by decide
  constructor
  · simp [calcTransactionCosts, rowGetD, alookup, pyFloat, pyUpper, h1,
      pyMul, pySub]
  · norm_num

/-- C3 (amended): on every row whose country cell is a string, a `notional`
or `rate` cell that is PRESENT but non-numeric — `pyFloat` gives `none`
exactly when Python `float()` raises: its string case accepts whitespace, a
sign, decimal literals with exponent and digit-group underscores, and
`inf`/`nan` — makes the calculator return 0 and raise nothing; a MISSING
cell is instead defaulted to the number 0 before the country formula
applies. -/
theorem C3_nonnumeric_yields_zero (row : Row) (c : String)
    (hc : rowGetD row "country" (Value.str "") = Value.str c)
    (h : pyFloat (rowGetD row "notional" (Value.num 0)) = none ∨
      pyFloat (rowGetD row "rate" (Value.num 0)) = none) :
    calcTransactionCosts row = some (PyF.fin 0) := by
  unfold calcTransactionCosts
  rw [hc]
  simp only [pyUpper]
  rcases h with h | h
  · simp [h]
  · cases hn : pyFloat (rowGetD row "notional" (Value.num 0)) with
    | none => simp [hn]
    | some n => simp [hn, h]

/-- Witness for C3's amended claim: a non-numeric notional string. -/
theorem C3_nonnumeric_yields_zero_witness :
    rowGetD [("country", Value.str "NL"), ("notional", Value.str "abc"),
        ("rate", Value.num 2)] "country" (Value.str "") = Value.str "NL" ∧
    pyFloat (rowGetD [("country", Value.str "NL"),
        ("notional", Value.str "abc"), ("rate", Value.num 2)] "notional"
        (Value.num 0)) = none ∧
    calcTransactionCosts [("country", Value.str "NL"),
        ("notional", Value.str "abc"), ("rate", Value.num 2)]
      = some (PyF.fin 0) :=
  ⟨rfl, by decide,
    C3_nonnumeric_yields_zero _ "NL" rfl (Or.inl (by decide))⟩

/-- C4 counterexample: with `max_retries = 0` a table WITH the `lei` column
still aborts — the fetch returns Python `None`, and the join then raises an
uncaught `AttributeError` — so the structural check is not the only
batch-fatal condition for every constructor configuration. -/
theorem C4_counterexample :
    "lei" ∈ (Frame.mk ["lei"] [[("lei", Value.str "X")]]).cols ∧
    (enrichDataset 0 0 (fun _ _ => Attempt.malformed) []
        (Frame.mk ["lei"] [[("lei", Value.str "X")]])).result
      = .error EnrichError.attributeError ∧
    (enrichDataset 0 0 (fun _ _ => Attempt.malformed) []
        (Frame.mk ["lei"] [[("lei", Value.str "X")]])).result
      ≠ .error EnrichError.missingColumn :=
  ⟨by decide, rfl, by
    intro hc
    rw [show (enrichDataset 0 0 (fun _ _ => Attempt.malformed) []
        (Frame.mk ["lei"] [[("lei", Value.str "X")]])).result
      = Except.error EnrichError.attributeError from rfl] at hc
    injection hc with h3
    exact EnrichError.noConfusion h3⟩

/-- C4 (amended): a table lacking the `lei` column makes `enrich_dataset`
raise the missing-column error before any lookup (zero requests, no sleeps,
cache untouched); and for every configuration with `max_retries ≥ 1` (the
default is 3) this structural check is the only batch-fatal condition: with
the column present the batch always returns. -/
theorem C4_missing_column_fatal (mr : ℕ) (rld : ℚ)
    (resp : String → ℕ → Attempt) (cache : Cache) (input : Frame)
    (hmr : 1 ≤ mr) :
    ("lei" ∉ input.cols →
      enrichDataset mr rld resp cache input
        = ⟨.error .missingColumn, cache, [], 0⟩) ∧
    ("lei" ∈ input.cols →
      ∃ out, (enrichDataset mr rld resp cache input).result = .ok out) := by
  constructor
  · intro h
    simp [enrichDataset, h]
  · intro h
    obtain ⟨out, hres, _, _⟩ := enrichDataset_spec mr rld resp cache input hmr h
    exact ⟨out, hres⟩

/-- Witness for C4's amended claim at a concrete column-less table. -/
theorem C4_missing_column_fatal_witness :
    1 ≤ 3 ∧
    (("lei" ∉ (Frame.mk ["id"] [[("id", Value.num 1)]]).cols →
      enrichDataset 3 0 (fun _ _ => Attempt.malformed) []
        (Frame.mk ["id"] [[("id", Value.num 1)]])
        = ⟨.error .missingColumn, [], [], 0⟩) ∧
    ("lei" ∈ (Frame.mk ["id"] [[("id", Value.num 1)]]).cols →
      ∃ out, (enrichDataset 3 0 (fun _ _ => Attempt.malformed) []
        (Frame.mk ["id"] [[("id", Value.num 1)]])).result = .ok out)) :=
  ⟨by decide,
    C4_missing_column_fatal 3 0 (fun _ _ => Attempt.malformed) []
      (Frame.mk ["id"] [[("id", Value.num 1)]]) (by decide)⟩

/-- C5: on a cache miss whose every attempt fails at transport level, the
fetch waits `2^attempt` units after each failed attempt except the last
(waits `2^0, ..., 2^(mr-2)`, none after the final attempt), raises the
`LEIEnrichmentError` whose message names the LEI, performs one request per
attempt, and leaves the cache unchanged — in particular with no entry for
that LEI, so a future run may retry it. -/
theorem C5_exhausted_retries (mr : ℕ) (rld : ℚ) (resp : ℕ → Attempt)
    (lei : String) (cache : Cache) (es : ℕ → String) (hmr : 1 ≤ mr)
    (hmiss : alookup cache lei = none)
    (hfail : ∀ j, j < mr → resp j = .transport (es j)) :
    (fetchLeiData mr rld resp lei cache).result
        = .error (failMsg lei mr (es (mr - 1))) ∧
    (fetchLeiData mr rld resp lei cache).sleeps
        = (List.range (mr - 1)).map (fun t => (2 : ℚ) ^ t) ∧
    (fetchLeiData mr rld resp lei cache).calls = mr ∧
    (fetchLeiData mr rld resp lei cache).cache = cache ∧
    alookup (fetchLeiData mr rld resp lei cache).cache lei = none := by
  have h := fetchLoop_all_transport rld resp lei mr cache es 0 mr hmr
    (by omega) hfail
  have hred : fetchLeiData mr rld resp lei cache
      = fetchLoop rld resp lei mr cache (List.range' 0 mr) := by
    simp [fetchLeiData, hmiss, List.range_eq_range']
  rw [hred]
  refine ⟨h.1, ?_, h.2.2.2, h.2.1, ?_⟩
  · rw [h.2.2.1, List.range_eq_range']
  · rw [h.2.1]
    exact hmiss

/-- Witness for C5 with two attempts, both failing. -/
theorem C5_exhausted_retries_witness :
    1 ≤ 2 ∧ alookup ([] : Cache) "L" = none ∧
    (∀ j, j < 2 → (fun _ : ℕ => Attempt.transport "boom") j
      = .transport ((fun _ : ℕ => "boom") j)) ∧
    ((fetchLeiData 2 0 (fun _ => Attempt.transport "boom") "L" []).result
        = .error (failMsg "L" 2 ((fun _ : ℕ => "boom") (2 - 1))) ∧
    (fetchLeiData 2 0 (fun _ => Attempt.transport "boom") "L" []).sleeps
        = (List.range (2 - 1)).map (fun t => (2 : ℚ) ^ t) ∧
    (fetchLeiData 2 0 (fun _ => Attempt.transport "boom") "L" []).calls = 2 ∧
    (fetchLeiData 2 0 (fun _ => Attempt.transport "boom") "L" []).cache = [] ∧
    alookup (fetchLeiData 2 0 (fun _ => Attempt.transport "boom")
      "L" []).cache "L" = none) :=
  ⟨by decide, rfl, fun j _ => rfl,
    C5_exhausted_retries 2 0 (fun _ => Attempt.transport "boom") "L" []
      (fun _ => "boom") (by decide) rfl (fun j _ => rfl)⟩

/-- C6: with at least one retry attempt, when every lookup attempt for one
LEI in the batch fails at transport level, the orchestrator substitutes the
all-empty record for that LEI only and the batch still returns: every row's
output `legalName`/`bic` are those of a standalone resolution of that row's
LEI, and for the failing LEI the standalone resolution is the all-empty
substitution. -/
theorem C6_one_failure_does_not_abort (mr : ℕ) (rld : ℚ)
    (resp : String → ℕ → Attempt) (cache : Cache) (input : Frame)
    (bad : String) (es : ℕ → String) (hmr : 1 ≤ mr)
    (hlei : "lei" ∈ input.cols)
    (hfresh : ∀ l ∈ uniqueFirst (input.rows.map rowLeiStr),
      alookup cache l = none)
    (hbad : ∀ j, j < mr → resp bad j = .transport (es j)) :
    storedRec mr rld resp bad = some Record.empty ∧
    ∃ out, (enrichDataset mr rld resp cache input).result = .ok out ∧
      out.rows.length = input.rows.length ∧
      ∀ i, i < input.rows.length → ∃ r2,
        storedRec mr rld resp (rowLeiStr (input.rows.getD i []))
          = some r2 ∧
        rowGetD (out.rows.getD i []) "legalName" Value.null
          = .str r2.legalName ∧
        rowGetD (out.rows.getD i []) "bic" Value.null = .str r2.bic := by
  have hbadstored : storedRec mr rld resp bad = some Record.empty := by
    have h5 := fetchLoop_all_transport rld (resp bad) bad mr [] es 0 mr hmr
      (by omega) hbad
    have hred : fetchLeiData mr rld (resp bad) bad ([] : Cache)
        = fetchLoop rld (resp bad) bad mr [] (List.range' 0 mr) := by
      simp [fetchLeiData, alookup, List.range_eq_range']
    simp [storedRec, hred, h5.1, storedFromE]
  refine ⟨hbadstored, ?_⟩
  obtain ⟨out, hres, hlen, hidx⟩ :=
    enrichDataset_spec mr rld resp cache input hmr hlei
  refine ⟨out, hres, hlen, ?_⟩
  intro i hi
  have hsome := resolveAll_info_some mr rld resp hmr
    (uniqueFirst (input.rows.map rowLeiStr)) cache
  obtain ⟨r2, hr2, _, hname, hbic⟩ :=
    enrichRow_ok _ (input.rows.getD i []) hsome
  have hcomb := hidx i hi
  rw [hr2] at hcomb
  injection hcomb with heq
  have hmem : rowLeiStr (input.rows.getD i [])
      ∈ uniqueFirst (input.rows.map rowLeiStr) := by
    refine (mem_uniqueFirst _ _).mpr ?_
    exact List.mem_map_of_mem rowLeiStr (getD_mem_of_lt input.rows i [] hi)
  have hlook := resolveAll_lookup mr rld resp
    (uniqueFirst (input.rows.map rowLeiStr)) cache
    (nodup_uniqueFirst _) hfresh _ hmem
  have hsr : alookup (resolveAll mr rld resp
      (uniqueFirst (input.rows.map rowLeiStr)) cache).info
      (rowLeiStr (input.rows.getD i []))
      = some (storedRec mr rld resp (rowLeiStr (input.rows.getD i []))) :=
    hlook
  have hsm : (storedRec mr rld resp
      (rowLeiStr (input.rows.getD i []))).isSome :=
    hsome _ (alookup_mem _ _ _ hsr)
  obtain ⟨r3, hr3⟩ := Option.isSome_iff_exists.mp hsm
  have hrec : recOf (resolveAll mr rld resp
      (uniqueFirst (input.rows.map rowLeiStr)) cache).info
      (rowLeiStr (input.rows.getD i [])) = r3 := by
    unfold recOf
    rw [hsr, hr3]
  refine ⟨r3, hr3, ?_, ?_⟩
  · rw [← heq, hname, hrec]
  · rw [← heq, hbic, hrec]

/-- Witness for C6: a two-row batch in which LEI `B` always fails at
transport level and LEI `A` resolves to an empty result. -/
theorem C6_one_failure_does_not_abort_witness :
    1 ≤ 1 ∧
    "lei" ∈ (Frame.mk ["lei"]
      [[("lei", Value.str "A")], [("lei", Value.str "B")]]).cols ∧
    (∀ l ∈ uniqueFirst ((Frame.mk ["lei"]
        [[("lei", Value.str "A")], [("lei", Value.str "B")]]).rows.map
        rowLeiStr), alookup ([] : Cache) l = none) ∧
    (∀ j, j < 1 →
      (fun l (_ : ℕ) => if l = "B" then Attempt.transport "down"
        else Attempt.success (Json.obj [("data", Json.arr [])])) "B" j
      = .transport ((fun _ : ℕ => "down") j)) ∧
    (storedRec 1 0 (fun l _ => if l = "B" then Attempt.transport "down"
        else Attempt.success (Json.obj [("data", Json.arr [])])) "B"
      = some Record.empty ∧
    ∃ out, (enrichDataset 1 0 (fun l _ => if l = "B" then
        Attempt.transport "down"
        else Attempt.success (Json.obj [("data", Json.arr [])])) []
        (Frame.mk ["lei"]
          [[("lei", Value.str "A")], [("lei", Value.str "B")]])).result
        = .ok out ∧
      out.rows.length = (Frame.mk ["lei"]
        [[("lei", Value.str "A")], [("lei", Value.str "B")]]).rows.length ∧
      ∀ i, i < (Frame.mk ["lei"]
          [[("lei", Value.str "A")], [("lei", Value.str "B")]]).rows.length →
        ∃ r2, storedRec 1 0 (fun l _ => if l = "B" then
            Attempt.transport "down"
            else Attempt.success (Json.obj [("data", Json.arr [])]))
            (rowLeiStr ((Frame.mk ["lei"]
              [[("lei", Value.str "A")], [("lei", Value.str "B")]]).rows.getD
              i [])) = some r2 ∧
          rowGetD (out.rows.getD i []) "legalName" Value.null
            = .str r2.legalName ∧
          rowGetD (out.rows.getD i []) "bic" Value.null = .str r2.bic) :=
  ⟨by decide, by decide, fun l _ => rfl, fun j _ => rfl,
    C6_one_failure_does_not_abort 1 0
      (fun l _ => if l = "B" then Attempt.transport "down"
        else Attempt.success (Json.obj [("data", Json.arr [])])) []
      (Frame.mk ["lei"] [[("lei", Value.str "A")], [("lei", Value.str "B")]])
      "B" (fun _ => "down") (by decide) (by decide) (fun l _ => rfl)
      (fun j _ => rfl)⟩

/-- Request count of `enrich_dataset` is determined by the first-seen list of
distinct LEI codes alone (and is 0 when the structural check fails). -/
theorem enrichDataset_calls (mr : ℕ) (rld : ℚ) (resp : String → ℕ → Attempt)
    (cache : Cache) (input : Frame) :
    (enrichDataset mr rld resp cache input).calls
      = if "lei" ∈ input.cols then
          (resolveAll mr rld resp
            (uniqueFirst (input.rows.map rowLeiStr)) cache).calls
        else 0 := by
  by_cases hl : "lei" ∈ input.cols
  · simp only [enrichDataset, hl, if_true]
    split <;> rfl
  · simp [enrichDataset, hl]

/-- C7: an empty-result response (structurally valid, zero records) resolves
on the first attempt with no retry (one request), returns the all-empty
record and caches it; every subsequent resolve of that LEI — whatever the
network would answer — is served from the cache with zero requests; and the
number of requests a batch issues depends only on its first-seen list of
distinct LEI codes, so duplicate LEIs across rows trigger no additional
resolution. -/
theorem C7_empty_result_cached (mr : ℕ) (rld : ℚ) (resp resp2 : ℕ → Attempt)
    (lei : String) (cache : Cache) (body : Json)
    (respB : String → ℕ → Attempt) (cache2 : Cache) (input input2 : Frame)
    (hmr : 1 ≤ mr) (hmiss : alookup cache lei = none)
    (hresp : resp 0 = .success body) (hnodata : hasRecords body = false)
    (hcols : input.cols = input2.cols)
    (huniq : uniqueFirst (input.rows.map rowLeiStr)
        = uniqueFirst (input2.rows.map rowLeiStr)) :
    (fetchLeiData mr rld resp lei cache).result = .ok (some Record.empty) ∧
    (fetchLeiData mr rld resp lei cache).calls = 1 ∧
    alookup (fetchLeiData mr rld resp lei cache).cache lei
      = some Record.empty ∧
    (fetchLeiData mr rld resp2 lei
      (fetchLeiData mr rld resp lei cache).cache).result
      = .ok (some Record.empty) ∧
    (fetchLeiData mr rld resp2 lei
      (fetchLeiData mr rld resp lei cache).cache).calls = 0 ∧
    (enrichDataset mr rld respB cache2 input).calls
      = (enrichDataset mr rld respB cache2 input2).calls := by
  obtain ⟨n, rfl⟩ : ∃ n, mr = n + 1 := ⟨mr - 1, by omega⟩
  have hred : fetchLeiData (n + 1) rld resp lei cache
      = ⟨.ok (some Record.empty), ainsert cache lei Record.empty, [], 1⟩ := by
    simp [fetchLeiData, hmiss, List.range_eq_range', List.range', fetchLoop,
      hresp, hnodata]
  have hcached : alookup (ainsert cache lei Record.empty) lei
      = some Record.empty := alookup_ainsert_self cache lei Record.empty
  have hred2 : fetchLeiData (n + 1) rld resp2 lei
      (ainsert cache lei Record.empty)
      = ⟨.ok (some Record.empty), ainsert cache lei Record.empty, [], 0⟩ := by
    simp [fetchLeiData, hcached]
  refine ⟨?_, ?_, ?_, ?_, ?_, ?_⟩
  · rw [hred]
  · rw [hred]
  · rw [hred]
    exact hcached
  · rw [hred, hred2]
  · rw [hred, hred2]
  · rw [enrichDataset_calls, enrichDataset_calls, hcols, huniq]

/-- Witness for C7: registry answers `data: []`; the batch pair differ only
by a duplicated row. -/
theorem C7_empty_result_cached_witness :
    1 ≤ 1 ∧ alookup ([] : Cache) "L" = none ∧
    (fun _ : ℕ => Attempt.success (Json.obj [("data", Json.arr [])])) 0
      = .success (Json.obj [("data", Json.arr [])]) ∧
    hasRecords (Json.obj [("data", Json.arr [])]) = false ∧
    (Frame.mk ["lei"] [[("lei", Value.str "A")],
      [("lei", Value.str "A")]]).cols
      = (Frame.mk ["lei"] [[("lei", Value.str "A")]]).cols ∧
    uniqueFirst ((Frame.mk ["lei"] [[("lei", Value.str "A")],
      [("lei", Value.str "A")]]).rows.map rowLeiStr)
      = uniqueFirst ((Frame.mk ["lei"]
        [[("lei", Value.str "A")]]).rows.map rowLeiStr) ∧
    ((fetchLeiData 1 0 (fun _ => Attempt.success
        (Json.obj [("data", Json.arr [])])) "L" []).result
      = .ok (some Record.empty) ∧
    (fetchLeiData 1 0 (fun _ => Attempt.success
        (Json.obj [("data", Json.arr [])])) "L" []).calls = 1 ∧
    alookup (fetchLeiData 1 0 (fun _ => Attempt.success
        (Json.obj [("data", Json.arr [])])) "L" []).cache "L"
      = some Record.empty ∧
    (fetchLeiData 1 0 (fun _ => Attempt.transport "x") "L"
      (fetchLeiData 1 0 (fun _ => Attempt.success
        (Json.obj [("data", Json.arr [])])) "L" []).cache).result
      = .ok (some Record.empty) ∧
    (fetchLeiData 1 0 (fun _ => Attempt.transport "x") "L"
      (fetchLeiData 1 0 (fun _ => Attempt.success
        (Json.obj [("data", Json.arr [])])) "L" []).cache).calls = 0 ∧
    (enrichDataset 1 0 (fun _ _ => Attempt.malformed) []
      (Frame.mk ["lei"] [[("lei", Value.str "A")],
        [("lei", Value.str "A")]])).calls
      = (enrichDataset 1 0 (fun _ _ => Attempt.malformed) []
        (Frame.mk ["lei"] [[("lei", Value.str "A")]])).calls) :=
  ⟨by decide, rfl, rfl, rfl, rfl, rfl,
    C7_empty_result_cached 1 0
      (fun _ => Attempt.success (Json.obj [("data", Json.arr [])]))
      (fun _ => Attempt.transport "x") "L" []
      (Json.obj [("data", Json.arr [])]) (fun _ _ => Attempt.malformed) []
      (Frame.mk ["lei"] [[("lei", Value.str "A")], [("lei", Value.str "A")]])
      (Frame.mk ["lei"] [[("lei", Value.str "A")]])
      (by decide) rfl rfl rfl rfl rfl⟩

/-- Round trip of one persisted record. -/
theorem decodeRecord_recordToJson (r : Record) :
    decodeRecord (recordToJson r) = r := rfl

/-- C8: saving the in-memory cache and loading the saved object back yields
the identical key-to-record mapping, whatever the cache contents and
whatever cache was in memory before the load. -/
theorem C8_cache_round_trip (c : Cache) (c0 : Cache) :
    loadCache (CacheSource.parsed (saveCache c)) c0 = .ok c := by
  show Except.ok (loadCacheJson (saveCache c)) = .ok c
  unfold loadCacheJson saveCache
  rw [List.map_map]
  congr 1
  induction c with
  | nil => rfl
  | cons p rest ih =>
    simp only [List.map_cons, Function.comp_apply, decodeRecord_recordToJson]
    rw [ih]

/-- C9 counterexample: loading a malformed persisted source returns normally
— the `except Exception` clause at line 235 only logs — with the in-memory
cache unchanged, so no `LoadError` is surfaced to the caller. -/
theorem C9_counterexample :
    loadCache CacheSource.malformed [] = .ok [] ∧
    ∀ e : String, loadCache CacheSource.malformed [] ≠ .error e :=
  ⟨rfl, fun e h => by simp [loadCache] at h⟩

/-- C9 (amended): loading a malformed persisted source surfaces no error and
leaves the in-memory cache unchanged (the failure is logged only), and
loading from a missing source is likewise a no-op. -/
theorem C9_load_never_raises (c : Cache) :
    loadCache CacheSource.malformed c = .ok c ∧
    loadCache CacheSource.missing c = .ok c :=
  ⟨rfl, rfl⟩

/-- C10: on a cache miss, an enricher with `max_retries ≥ 1` always either
returns a record or raises the `LEIEnrichmentError`; with `max_retries = 0`
(what Python int arithmetic yields for any non-positive value: the loop body
never runs) it instead returns Python `None` — neither a record nor an
exception. -/
theorem C10_zero_retries_returns_none (mr : ℕ) (rld : ℚ)
    (resp : ℕ → Attempt) (lei : String) (cache : Cache)
    (hmiss : alookup cache lei = none) :
    (1 ≤ mr → (fetchLeiData mr rld resp lei cache).result ≠ .ok none) ∧
    (mr = 0 → (fetchLeiData mr rld resp lei cache).result = .ok none) := by
  constructor
  · intro hmr
    exact fetchLeiData_ne_none mr rld resp lei cache hmr
  · rintro rfl
    simp only [fetchLeiData, hmiss, List.range_zero]
    rfl

/-- Witness for C10 at `max_retries = 0` on an uncached LEI. -/
theorem C10_zero_retries_returns_none_witness :
    alookup ([] : Cache) "L" = none ∧
    ((1 ≤ 0 → (fetchLeiData 0 0 (fun _ => Attempt.malformed)
        "L" []).result ≠ .ok none) ∧
    (0 = 0 → (fetchLeiData 0 0 (fun _ => Attempt.malformed)
        "L" []).result = .ok none)) :=
  ⟨rfl, C10_zero_retries_returns_none 0 0 (fun _ => Attempt.malformed)
    "L" [] rfl⟩

end DataEnrichment
